import Mathlib

/-!
Verification of the No-Limit Texas Hold'em rules engine.

This file gives a shallow embedding, in Lean, of the engine layer of the
repository: the card domain, the hand evaluator, the pot ledger, the betting
state machine's action application and round-completion query, and the
showdown resolver.  Chip quantities are modelled as `Int` (the source works
on JavaScript numbers holding integer chip counts).  Fallible code
(`evaluateHand` on fewer than five cards) is modelled with `Except`.

The theorems at the end of the file settle the spec claims against these
definitions.
-/

namespace Poker

/-- Suits, from the `Suit` enum of the card types module. -/
inductive Suit where
  | spades
  | hearts
  | diamonds
  | clubs
deriving DecidableEq, Repr

/-- Ranks 2..14 (14 = Ace), from the `Rank` enum of the card types module. -/
inductive Rank where
  | two | three | four | five | six | seven | eight | nine | ten
  | jack | queen | king | ace
deriving DecidableEq, Repr

/-- The numeric value of a rank, exactly the values of the `Rank` enum. -/
def Rank.val : Rank → Int
  | .two => 2
  | .three => 3
  | .four => 4
  | .five => 5
  | .six => 6
  | .seven => 7
  | .eight => 8
  | .nine => 9
  | .ten => 10
  | .jack => 11
  | .queen => 12
  | .king => 13
  | .ace => 14

/-- A card is a (rank, suit) pair; equality is componentwise. -/
structure Card where
  rank : Rank
  suit : Suit
deriving DecidableEq, Repr

/-- Hand categories, numbered 0..9 as in the `HandCategory` enum. -/
inductive HandCategory where
  | highCard
  | pair
  | twoPair
  | threeOfAKind
  | straight
  | flush
  | fullHouse
  | fourOfAKind
  | straightFlush
  | royalFlush
deriving DecidableEq, Repr

/-- The numeric value of a hand category (0 = High Card .. 9 = Royal Flush). -/
def HandCategory.val : HandCategory → Int
  | .highCard => 0
  | .pair => 1
  | .twoPair => 2
  | .threeOfAKind => 3
  | .straight => 4
  | .flush => 5
  | .fullHouse => 6
  | .fourOfAKind => 7
  | .straightFlush => 8
  | .royalFlush => 9

/-- Result of evaluating exactly five cards (`FiveCardResult` in the source):
category, a sub-rank breaking ties within the category (higher = better), and
the five cards themselves. -/
structure FiveCardResult where
  category : HandCategory
  subRank : Int
  bestCards : List Card
deriving Repr

/-- Result of `evaluateHand` (`HandEvalResult` in the source).  `rank` is the
single comparable value (lower = better). -/
structure HandEvalResult where
  category : HandCategory
  rank : Int
  cards : List Card
  description : String
deriving Repr, DecidableEq

/-- Sort a list of integers descending, as the source's
`.sort((a, b) => b - a)` (a stable sort; modelled by insertion sort, which is
also stable). -/
def sortDesc (l : List Int) : List Int :=
  l.insertionSort (fun a b => b ≤ a)

/-- The `counts` table of the evaluator: rank-occurrence pairs sorted by count
descending, then rank descending (the source's
`.sort((a, b) => b[1] - a[1] || b[0] - a[0])` over the `Map` entries). -/
def countsTable (ranks : List Int) : List (Int × Nat) :=
  (ranks.dedup.map (fun r => (r, ranks.count r))).insertionSort
    (fun a b => b.2 < a.2 ∨ (a.2 = b.2 ∧ b.1 ≤ a.1))

/-- `evaluateFiveCards` from the evaluator module, translated clause by
clause.  Out-of-range index reads of the source (which would yield JavaScript
`undefined`) are modelled by `getD` with default `0`; they are reachable only
off the five-card domain on which the source calls this function. -/
def evaluateFiveCards (cards : List Card) : FiveCardResult :=
  let ranks := sortDesc (cards.map (fun c => c.rank.val))
  let suits := cards.map (fun c => c.suit)
  let isFlush : Bool :=
    match suits with
    | [] => true
    | s0 :: _ => suits.all (fun s => decide (s = s0))
  let r0 := ranks.getD 0 0
  let r1 := ranks.getD 1 0
  let r2 := ranks.getD 2 0
  let r3 := ranks.getD 3 0
  let r4 := ranks.getD 4 0
  -- normal straight check, then the wheel (A-2-3-4-5) special case
  let straightPair : Bool × Int :=
    if r0 - r4 = 4 ∧ ranks.dedup.length = 5 then (true, r0)
    else if r0 = 14 ∧ r1 = 5 ∧ r2 = 4 ∧ r3 = 3 ∧ r4 = 2 then (true, 5)
    else (false, 0)
  let isStraight := straightPair.1
  let straightHigh := straightPair.2
  let counts := countsTable ranks
  let c0 := counts.getD 0 (0, 0)
  let c1 := counts.getD 1 (0, 0)
  let c2 := counts.getD 2 (0, 0)
  if isFlush && isStraight then
    if straightHigh = 14 then
      { category := .royalFlush, subRank := 14, bestCards := cards }
    else
      { category := .straightFlush, subRank := straightHigh, bestCards := cards }
  else if c0.2 = 4 then
    { category := .fourOfAKind, subRank := c0.1 * 15 + c1.1, bestCards := cards }
  else if c0.2 = 3 ∧ c1.2 = 2 then
    { category := .fullHouse, subRank := c0.1 * 15 + c1.1, bestCards := cards }
  else if isFlush then
    { category := .flush,
      subRank := r0 * 15 ^ 4 + r1 * 15 ^ 3 + r2 * 15 ^ 2 + r3 * 15 + r4,
      bestCards := cards }
  else if isStraight then
    { category := .straight, subRank := straightHigh, bestCards := cards }
  else if c0.2 = 3 then
    let kickers := sortDesc ((counts.drop 1).map (fun c => c.1))
    { category := .threeOfAKind,
      subRank := c0.1 * 15 * 15 + kickers.getD 0 0 * 15 + kickers.getD 1 0,
      bestCards := cards }
  else if c0.2 = 2 ∧ c1.2 = 2 then
    { category := .twoPair,
      subRank := max c0.1 c1.1 * 15 * 15 + min c0.1 c1.1 * 15 + c2.1,
      bestCards := cards }
  else if c0.2 = 2 then
    let kickers := sortDesc ((counts.drop 1).map (fun c => c.1))
    { category := .pair,
      subRank := c0.1 * 15 ^ 3 + kickers.getD 0 0 * 15 ^ 2 +
        kickers.getD 1 0 * 15 + kickers.getD 2 0,
      bestCards := cards }
  else
    { category := .highCard,
      subRank := r0 * 15 ^ 4 + r1 * 15 ^ 3 + r2 * 15 ^ 2 + r3 * 15 + r4,
      bestCards := cards }

/-- `RANK_NAMES`, as a function on the numeric rank values. -/
def rankName : Int → String
  | 2 => "Two"
  | 3 => "Three"
  | 4 => "Four"
  | 5 => "Five"
  | 6 => "Six"
  | 7 => "Seven"
  | 8 => "Eight"
  | 9 => "Nine"
  | 10 => "Ten"
  | 11 => "Jack"
  | 12 => "Queen"
  | 13 => "King"
  | 14 => "Ace"
  | _ => "undefined"

/-- The evaluator's `pluralRn` helper. -/
def pluralRankName (r : Int) : String :=
  if r = 6 then "Sixes" else rankName r ++ "s"

/-- `describeHand` from the evaluator module. -/
def describeHand (category : HandCategory) (cards : List Card) : String :=
  let ranks := sortDesc (cards.map (fun c => c.rank.val))
  let counts := countsTable ranks
  let r0 := ranks.getD 0 0
  let r1 := ranks.getD 1 0
  let r2 := ranks.getD 2 0
  let r3 := ranks.getD 3 0
  let r4 := ranks.getD 4 0
  let c0 := counts.getD 0 (0, 0)
  let c1 := counts.getD 1 (0, 0)
  let isWheel : Bool := decide (r0 = 14 ∧ r1 = 5 ∧ r2 = 4 ∧ r3 = 3 ∧ r4 = 2)
  match category with
  | .royalFlush => "Royal Flush"
  | .straightFlush =>
      "Straight Flush, " ++ rankName (if isWheel then 5 else r0) ++ "-high"
  | .fourOfAKind => "Four " ++ pluralRankName c0.1
  | .fullHouse =>
      "Full House, " ++ pluralRankName c0.1 ++ " full of " ++ pluralRankName c1.1
  | .flush => "Flush, " ++ rankName r0 ++ "-high"
  | .straight => "Straight, " ++ rankName (if isWheel then 5 else r0) ++ "-high"
  | .threeOfAKind => "Three " ++ pluralRankName c0.1
  | .twoPair =>
      "Two Pair, " ++ pluralRankName (max c0.1 c1.1) ++ " and " ++
        pluralRankName (min c0.1 c1.1)
  | .pair => "Pair of " ++ pluralRankName c0.1
  | .highCard => rankName r0 ++ "-high"

/-- `toComparableRank`: category plus sub-rank folded into one number, lower
= better. -/
def toComparableRank (category : HandCategory) (subRank : Int) : Int :=
  -(category.val * 1000000 + subRank)

/-- Build the `HandEvalResult` record the source assembles after picking a
five-card result and the cards it came from. -/
def mkEvalResult (result : FiveCardResult) (cards : List Card) : HandEvalResult :=
  { category := result.category,
    rank := toComparableRank result.category result.subRank,
    cards := cards,
    description := describeHand result.category cards }

/-- All `n`-element combinations of a list, in the lexicographic-by-index
order produced by the source's nested-loop generator. -/
def combinations (n : Nat) (l : List Card) : List (List Card) :=
  match n, l with
  | 0, _ => [[]]
  | _ + 1, [] => []
  | m + 1, x :: xs =>
      ((combinations m xs).map (fun c => x :: c)) ++ combinations (m + 1) xs

/-- `fiveCardCombinations`: every five-card subset, in generator order. -/
def fiveCardCombinations (cards : List Card) : List (List Card) :=
  combinations 5 cards

/-- The best-combination fold of `evaluateHand` over six or more cards: keep
the first combination whose (category, subRank) is maximal, using the
source's strict-improvement test. -/
def bestOfCombos (combos : List (List Card)) : Option (FiveCardResult × List Card) :=
  combos.foldl
    (fun best combo =>
      let result := evaluateFiveCards combo
      match best with
      | none => some (result, combo)
      | some b =>
          if b.1.category.val < result.category.val ∨
              (result.category = b.1.category ∧ b.1.subRank < result.subRank) then
            some (result, combo)
          else best)
    none

/-- `evaluateHand`: throws (modelled as `Except.error`) on fewer than five
cards; otherwise evaluates the five cards directly or the best of all
five-card combinations.  The `none` branch of the fold result is unreachable
for five or more cards (the source asserts it away with `bestResult!`). -/
def evaluateHand (cards : List Card) : Except String HandEvalResult :=
  if cards.length < 5 then
    Except.error ("Need at least 5 cards, got " ++ toString cards.length)
  else if cards.length = 5 then
    let result := evaluateFiveCards cards
    Except.ok (mkEvalResult result result.bestCards)
  else
    match bestOfCombos (fiveCardCombinations cards) with
    | some best => Except.ok (mkEvalResult best.1 best.2)
    | none => Except.error ("no five-card combination")

/-- `compareHands`: negative if `a` wins, positive if `b` wins, 0 for a tie. -/
def compareHands (a b : HandEvalResult) : Int :=
  a.rank - b.rank

/-- A seated player (`Player` in the types module).  The presentation-only
fields (`position`, `personality`) are not read by any engine operation
modelled here and are omitted. -/
structure Player where
  id : String
  name : String
  stack : Int
  holeCards : Option (Card × Card)
  currentBet : Int
  totalBetThisHand : Int
  isFolded : Bool
  isAllIn : Bool
  isHuman : Bool
  seatIndex : Nat
deriving DecidableEq, Repr

/-- A pot: an amount and the ids of the players eligible to win it. -/
structure Pot where
  amount : Int
  eligiblePlayerIds : List String
deriving DecidableEq, Repr

/-- `pots[pots.length - 1].amount += potAmount` — add dead money to the last
pot of a non-empty pot list. -/
def addToLastPot (pots : List Pot) (extra : Int) : List Pot :=
  match pots with
  | [] => []
  | [p] => [{ p with amount := p.amount + extra }]
  | p :: q :: rest => p :: addToLastPot (q :: rest) extra

/-- The body of the per-level loop of `calculatePots`.  The accumulator is
(`previousLevel`, pots built so far). -/
def potStep (bettingPlayers nonFolded : List Player)
    (acc : Int × List Pot) (level : Int) : Int × List Pot :=
  let previousLevel := acc.1
  let pots := acc.2
  let potAmount :=
    (bettingPlayers.map (fun p =>
      max 0 (min p.totalBetThisHand level - min p.totalBetThisHand previousLevel))).sum
  let eligible :=
    (nonFolded.filter (fun p => decide (level ≤ p.totalBetThisHand))).map (fun p => p.id)
  let pots' :=
    if 0 < potAmount ∧ eligible ≠ [] then
      pots ++ [{ amount := potAmount, eligiblePlayerIds := eligible }]
    else if 0 < potAmount ∧ pots ≠ [] then
      addToLastPot pots potAmount
    else pots
  (level, pots')

/-- `calculatePots` from the pot module, translated clause by clause.
`Math.max(...)` over the contribution list is modelled with `max?` (the code
path is reached only when the list is non-empty, where the two agree);
`[...new Set(xs)]` is modelled with `dedup` (order before sorting is
irrelevant). -/
def calculatePots (players : List Player) : List Pot :=
  let totalMoney := (players.map (fun p => p.totalBetThisHand)).sum
  if totalMoney = 0 then []
  else
    let nonFolded := players.filter (fun p => !p.isFolded)
    let allNonFoldedIds := nonFolded.map (fun p => p.id)
    if allNonFoldedIds = [] then []
    else
      let maxBet := ((players.map (fun p => p.totalBetThisHand)).max?).getD 0
      let shortAllIns :=
        (nonFolded.filter (fun p => p.isAllIn && decide (p.totalBetThisHand < maxBet))).map
          (fun p => p.totalBetThisHand)
      if shortAllIns = [] then
        [{ amount := totalMoney, eligiblePlayerIds := allNonFoldedIds }]
      else
        let levels := ((shortAllIns ++ [maxBet]).dedup).insertionSort (fun a b => a ≤ b)
        let bettingPlayers := players.filter (fun p => decide (0 < p.totalBetThisHand))
        let pots := (levels.foldl (potStep bettingPlayers nonFolded) (0, [])).2
        if pots = [] then
          [{ amount := totalMoney, eligiblePlayerIds := allNonFoldedIds }]
        else pots

/-- `totalPotSize`. -/
def totalPotSize (pots : List Pot) : Int :=
  (pots.map (fun p => p.amount)).sum

/-- Streets, from the `Street` enum. -/
inductive Street where
  | preflop
  | flop
  | turn
  | river
  | showdown
deriving DecidableEq, Repr

/-- Action kinds, from the `ActionType` enum. -/
inductive ActionType where
  | fold
  | check
  | call
  | bet
  | raise
  | allIn
  | postBlind
deriving DecidableEq, Repr

/-- An immutable action-log entry (`PlayerAction`). -/
structure PlayerAction where
  playerId : String
  type : ActionType
  amount : Int
  street : Street
deriving DecidableEq, Repr

/-- A showdown winner entry. -/
structure Winner where
  playerId : String
  amount : Int
  hand : String
deriving DecidableEq, Repr

/-- The game state (`GameState`). -/
structure GameState where
  handNumber : Nat
  street : Street
  deck : List Card
  communityCards : List Card
  pots : List Pot
  currentBet : Int
  minRaise : Int
  players : List Player
  dealerIndex : Nat
  activePlayerIndex : Nat
  actions : List PlayerAction
  isHandComplete : Bool
  winners : List Winner
deriving Repr

/-- `executeAction` from the actions module: apply one action for the active
player, clamping chip movements to the player's stack, and append one log
entry with the actual amount moved.  If the active index is out of range the
source would fail on the `undefined` player; that branch is modelled as
returning the state unchanged and is excluded by the theorems below. -/
def executeAction (state : GameState) (action : ActionType) (amount : Int) : GameState :=
  match state.players[state.activePlayerIndex]? with
  | none => state
  | some player =>
    let result : Player × Int × Int × Int :=
      -- (updated player, new table currentBet, new minRaise, logged amount)
      match action with
      | .fold => ({ player with isFolded := true }, state.currentBet, state.minRaise, 0)
      | .check => (player, state.currentBet, state.minRaise, 0)
      | .call =>
          let toCall := min (state.currentBet - player.currentBet) player.stack
          let p :=
            { player with
              stack := player.stack - toCall,
              currentBet := player.currentBet + toCall,
              totalBetThisHand := player.totalBetThisHand + toCall }
          ({ p with isAllIn := decide (p.stack = 0) || p.isAllIn }, state.currentBet, state.minRaise, toCall)
      | .bet =>
          let betAmount := min amount player.stack
          let p :=
            { player with
              stack := player.stack - betAmount,
              currentBet := player.currentBet + betAmount,
              totalBetThisHand := player.totalBetThisHand + betAmount }
          ({ p with isAllIn := decide (p.stack = 0) || p.isAllIn },
            p.currentBet, betAmount, betAmount)
      | .raise =>
          let toCall := state.currentBet - player.currentBet
          let totalAmount := min amount player.stack
          let raiseAbove := totalAmount - toCall
          let p :=
            { player with
              stack := player.stack - totalAmount,
              currentBet := player.currentBet + totalAmount,
              totalBetThisHand := player.totalBetThisHand + totalAmount }
          ({ p with isAllIn := decide (p.stack = 0) || p.isAllIn },
            p.currentBet, max state.minRaise raiseAbove, totalAmount)
      | .allIn =>
          let allInAmount := player.stack
          let p :=
            { player with
              stack := 0,
              currentBet := player.currentBet + allInAmount,
              totalBetThisHand := player.totalBetThisHand + allInAmount,
              isAllIn := true }
          if state.currentBet < p.currentBet then
            (p, p.currentBet, max state.minRaise (p.currentBet - state.currentBet), allInAmount)
          else
            (p, state.currentBet, state.minRaise, allInAmount)
      | .postBlind =>
          -- no case in the source's switch: no chip movement, only a log entry
          (player, state.currentBet, state.minRaise, 0)
    { state with
      players := state.players.set state.activePlayerIndex result.1,
      currentBet := result.2.1,
      minRaise := result.2.2.1,
      actions := state.actions ++
        [{ playerId := player.id, type := action, amount := result.2.2.2,
           street := state.street }] }

/-- The non-blind actions the given player has taken on the current street
(the `streetActions` filter of `isBettingRoundComplete`). -/
def streetActionsOf (state : GameState) (player : Player) : List PlayerAction :=
  state.actions.filter (fun a =>
    decide (a.street = state.street ∧ a.playerId = player.id ∧ a.type ≠ ActionType.postBlind))

/-- `isBettingRoundComplete` from the game module, translated clause by
clause. -/
def isBettingRoundComplete (state : GameState) : Bool :=
  let nonFolded := state.players.filter (fun p => !p.isFolded)
  if nonFolded.length ≤ 1 then true
  else
    let active := nonFolded.filter (fun p => !p.isAllIn)
    if active.length = 0 then true
    else if active.length = 1 then
      match active with
      | [] => false  -- unreachable: active.length = 1
      | player :: _ =>
        let streetActions := streetActionsOf state player
        if state.currentBet ≤ player.currentBet ∧ streetActions.length > 0 then true
        else if streetActions.length = 0 then false
        else decide (state.currentBet ≤ player.currentBet)
    else
      active.all (fun player =>
        decide ((streetActionsOf state player).length > 0 ∧
          state.currentBet ≤ player.currentBet))

/-- First-match lookup in the evaluated-hands association list (the source
stores hands in a `Map` keyed by player id). -/
def lookupHand : List (String × HandEvalResult) → String → Option HandEvalResult
  | [], _ => none
  | (pid, r) :: rest, target => if pid = target then some r else lookupHand rest target

/-- The hand-evaluation pass of `resolveShowdown`: every non-folded player
with hole cards and at least five total cards gets an evaluated hand, in
player order.  (`evaluateHand` cannot fail on five or more cards; the error
branch is unreachable.) -/
def computePlayerHands (players : List Player) (communityCards : List Card) :
    List (String × HandEvalResult) :=
  players.foldl
    (fun acc player =>
      if player.isFolded then acc
      else
        match player.holeCards with
        | none => acc
        | some (h1, h2) =>
          let allCards := h1 :: h2 :: communityCards
          if 5 ≤ allCards.length then
            match evaluateHand allCards with
            | Except.ok result => acc ++ [(player.id, result)]
            | Except.error _ => acc
          else acc)
    []

/-- The eligible evaluated hands of one pot. -/
def eligibleHandsOf (playerHands : List (String × HandEvalResult)) (pot : Pot) :
    List (String × HandEvalResult) :=
  pot.eligiblePlayerIds.filterMap (fun pid =>
    (lookupHand playerHands pid).map (fun r => (pid, r)))

/-- The per-winner credits of one pot: every tied winner gets the integer
share `pot.amount / k`, and the first winner additionally gets the
remainder (the source's `share + (i === 0 ? remainder : 0)`).  Division is
floor division, as `Math.floor` on a JavaScript number. -/
def potCredits (amount : Int) (potWinners : List (String × HandEvalResult)) :
    List (String × Int × String) :=
  let share := Int.fdiv amount potWinners.length
  let remainder := amount - share * potWinners.length
  potWinners.enum.map (fun ip =>
    (ip.2.1, share + (if ip.1 = 0 then remainder else 0), ip.2.2.description))

/-- Credit one amount to a winner: bump the first existing entry with this
player id, or append a new entry (the source's `winners.find` / `push`). -/
def creditWinner (winners : List Winner) (pid : String) (amt : Int) (desc : String) :
    List Winner :=
  match winners with
  | [] => [{ playerId := pid, amount := amt, hand := desc }]
  | w :: rest =>
      if w.playerId = pid then { w with amount := w.amount + amt } :: rest
      else w :: creditWinner rest pid amt desc

/-- The per-pot body of `resolveShowdown`'s loop: pots with no eligible
evaluated hand are skipped (`continue`); otherwise the eligible hands are
sorted by comparable rank (stably, as the source's `sort(compareHands)`),
the tied-for-best set is selected, and the credits are folded into the
accumulated winners list. -/
def processPot (playerHands : List (String × HandEvalResult))
    (winners : List Winner) (pot : Pot) : List Winner :=
  let eligibleHands := eligibleHandsOf playerHands pot
  match eligibleHands.insertionSort (fun a b => a.2.rank ≤ b.2.rank) with
  | [] => winners
  | best :: rest =>
    let sorted := best :: rest
    let potWinners := sorted.filter (fun h => decide (h.2.rank = best.2.rank))
    (potCredits pot.amount potWinners).foldl
      (fun ws c => creditWinner ws c.1 c.2.1 c.2.2) winners

/-- The result record of `resolveShowdown`. -/
structure ShowdownResult where
  winners : List Winner
  playerHands : List (String × HandEvalResult)
deriving Repr

/-- `resolveShowdown` from the showdown module: evaluate all hands, then
distribute every pot to the players tied for the best eligible hand. -/
def resolveShowdown (players : List Player) (communityCards : List Card)
    (pots : List Pot) : ShowdownResult :=
  let playerHands := computePlayerHands players communityCards
  { winners := pots.foldl (processPot playerHands) [],
    playerHands := playerHands }

/-! ### Derived quantities used by the theorems -/

/-- The sum over all players of the cumulative hand contribution. -/
def totalContributions (players : List Player) : Int :=
  (players.map (fun p => p.totalBetThisHand)).sum

/-- The sum over all players of stack plus cumulative hand contribution: the
quantity conserved by every action. -/
def chipTotal (players : List Player) : Int :=
  (players.map (fun p => p.stack + p.totalBetThisHand)).sum

/-- The total amount credited to a winners list. -/
def winnersTotal (ws : List Winner) : Int :=
  (ws.map (fun w => w.amount)).sum

/-! ### Concrete fixtures for witnesses and counterexamples -/

/-- A neutral player record to build concrete test players from. -/
def basePlayer : Player :=
  { id := "p", name := "p", stack := 0, holeCards := none, currentBet := 0,
    totalBetThisHand := 0, isFolded := false, isAllIn := false,
    isHuman := false, seatIndex := 0 }

/-- A neutral game state to build concrete test states from. -/
def baseState : GameState :=
  { handNumber := 1, street := .flop, deck := [], communityCards := [],
    pots := [], currentBet := 0, minRaise := 10, players := [],
    dealerIndex := 0, activePlayerIndex := 0, actions := [],
    isHandComplete := false, winners := [] }

/-! ## Claim C3: side-pot partition for contributions 30 / 50 / 100 -/

/-- C3.  For three non-folded players A, B, C with cumulative hand
contributions 30 (all-in), 50 (all-in) and 100, `calculatePots` returns
exactly three pots, in order, with amounts 90, 40 and 50, eligible to
{A,B,C}, {B,C} and {C} respectively. -/
theorem claim3_side_pot_partition :
    calculatePots
      [{ basePlayer with id := "A", totalBetThisHand := 30, isAllIn := true },
       { basePlayer with id := "B", totalBetThisHand := 50, isAllIn := true },
       { basePlayer with id := "C", stack := 50, totalBetThisHand := 100 }] =
      [{ amount := 90, eligiblePlayerIds := ["A", "B", "C"] },
       { amount := 40, eligiblePlayerIds := ["B", "C"] },
       { amount := 50, eligiblePlayerIds := ["C"] }] := by
  decide

/-! ## Claim C7: evaluateHand fails exactly on fewer than five cards -/

/-- `combinations n l` is non-empty whenever `n ≤ l.length`. -/
theorem combinations_ne_nil :
    ∀ (n : Nat) (l : List Card), n ≤ l.length → combinations n l ≠ [] := by
  intro n
  induction n with
  | zero => intro l _; simp [combinations]
  | succ m ih =>
      intro l hl
      match l with
      | [] => simp at hl
      | x :: xs =>
          have hm : m ≤ xs.length := by simpa using Nat.le_of_succ_le_succ hl
          have h1 : combinations m xs ≠ [] := ih xs hm
          simp only [combinations, ne_eq, List.append_eq_nil, List.map_eq_nil_iff]
          intro ⟨h2, _⟩
          exact h1 h2

/-- The best-combination fold returns `some` once the accumulator is `some`. -/
theorem bestOfCombos_foldl_some (combos : List (List Card)) :
    ∀ acc : FiveCardResult × List Card,
      (combos.foldl
        (fun best combo =>
          let result := evaluateFiveCards combo
          match best with
          | none => some (result, combo)
          | some b =>
              if b.1.category.val < result.category.val ∨
                  (result.category = b.1.category ∧ b.1.subRank < result.subRank) then
                some (result, combo)
              else best)
        (some acc)).isSome := by
  induction combos with
  | nil => intro acc; rfl
  | cons c cs ih =>
      intro acc
      simp only [List.foldl_cons]
      split
      · exact ih _
      · exact ih _

/-- The best-combination fold yields a value on any non-empty combination
list. -/
theorem bestOfCombos_isSome {combos : List (List Card)} (h : combos ≠ []) :
    (bestOfCombos combos).isSome := by
  match combos with
  | [] => exact absurd rfl h
  | c :: cs =>
      unfold bestOfCombos
      simp only [List.foldl_cons]
      exact bestOfCombos_foldl_some cs _

/-- C7.  On fewer than five cards `evaluateHand` fails with the
insufficient-cards error (and produces no result); on five or more cards it
never raises this error and produces an evaluation. -/
theorem claim7_insufficient_cards (cards : List Card) :
    (cards.length < 5 → evaluateHand cards =
        Except.error ("Need at least 5 cards, got " ++ toString cards.length)) ∧
    (5 ≤ cards.length → ∃ r, evaluateHand cards = Except.ok r) := by
  constructor
  · intro h
    simp [evaluateHand, h]
  · intro h
    unfold evaluateHand
    rw [if_neg (by omega)]
    by_cases h5 : cards.length = 5
    · rw [if_pos h5]
      exact ⟨_, rfl⟩
    · rw [if_neg h5]
      have hne : fiveCardCombinations cards ≠ [] :=
        combinations_ne_nil 5 cards h
      have hsome := bestOfCombos_isSome hne
      match hb : bestOfCombos (fiveCardCombinations cards) with
      | some best => exact ⟨_, rfl⟩
      | none => rw [hb] at hsome; simp at hsome

/-- Witness for C7 at concrete inputs: four cards fail with the designated
error, five cards succeed. -/
theorem claim7_witness :
    evaluateHand
        [⟨.ace, .spades⟩, ⟨.king, .spades⟩, ⟨.queen, .spades⟩, ⟨.jack, .spades⟩] =
      Except.error ("Need at least 5 cards, got " ++ toString
        ([⟨.ace, .spades⟩, ⟨.king, .spades⟩, ⟨.queen, .spades⟩,
          (⟨.jack, .spades⟩ : Card)] : List Card).length) ∧
    ∃ r, evaluateHand
        [⟨.ace, .spades⟩, ⟨.king, .spades⟩, ⟨.queen, .spades⟩, ⟨.jack, .spades⟩,
         ⟨.ten, .spades⟩] = Except.ok r :=
  ⟨(claim7_insufficient_cards _).1 (by decide),
   (claim7_insufficient_cards _).2 (by decide)⟩

/-! ## Claim C4: the wheel ranks as a five-high straight -/

instance : Fintype Suit :=
  ⟨⟨{.spades, .hearts, .diamonds, .clubs}, by decide⟩, by intro x; cases x <;> decide⟩

/-- The five cards A-2-3-4-5 with the given suits. -/
def wheelCards (s1 s2 s3 s4 s5 : Suit) : List Card :=
  [⟨.ace, s1⟩, ⟨.two, s2⟩, ⟨.three, s3⟩, ⟨.four, s4⟩, ⟨.five, s5⟩]

/-- The five cards 6-5-4-3-2 with the given suits. -/
def sixHighCards (t1 t2 t3 t4 t5 : Suit) : List Card :=
  [⟨.six, t1⟩, ⟨.five, t2⟩, ⟨.four, t3⟩, ⟨.three, t4⟩, ⟨.two, t5⟩]

set_option maxHeartbeats 4000000 in
/-- Exhaustive check over all suit assignments: the wheel evaluates with
sub-rank 5 and category Straight Flush exactly when all five suits agree,
Straight otherwise. -/
theorem wheel_eval (s1 s2 s3 s4 s5 : Suit) :
    (evaluateFiveCards (wheelCards s1 s2 s3 s4 s5)).subRank = 5 ∧
    (evaluateFiveCards (wheelCards s1 s2 s3 s4 s5)).category =
      (if s1 = s2 ∧ s2 = s3 ∧ s3 = s4 ∧ s4 = s5 then HandCategory.straightFlush
       else HandCategory.straight) := by
  revert s1 s2 s3 s4 s5; decide

set_option maxHeartbeats 4000000 in
/-- Exhaustive check over all suit assignments: 6-5-4-3-2 evaluates with
sub-rank 6 and category Straight Flush exactly when all five suits agree,
Straight otherwise. -/
theorem six_high_eval (t1 t2 t3 t4 t5 : Suit) :
    (evaluateFiveCards (sixHighCards t1 t2 t3 t4 t5)).subRank = 6 ∧
    (evaluateFiveCards (sixHighCards t1 t2 t3 t4 t5)).category =
      (if t1 = t2 ∧ t2 = t3 ∧ t3 = t4 ∧ t4 = t5 then HandCategory.straightFlush
       else HandCategory.straight) := by
  revert t1 t2 t3 t4 t5; decide

/-- C4.  For every suit assignment, A-2-3-4-5 evaluates as a Straight
(Straight Flush when all one suit) with sub-rank 5 (five-high), and
`compareHands` ranks it strictly below the like-categorised straight
6-5-4-3-2 (six-high), despite the hand containing an Ace. -/
theorem claim4_wheel_five_high (s1 s2 s3 s4 s5 t1 t2 t3 t4 t5 : Suit) :
    (evaluateFiveCards (wheelCards s1 s2 s3 s4 s5)).subRank = 5 ∧
    ((s1 = s2 ∧ s2 = s3 ∧ s3 = s4 ∧ s4 = s5) →
      (evaluateFiveCards (wheelCards s1 s2 s3 s4 s5)).category =
        HandCategory.straightFlush) ∧
    (¬(s1 = s2 ∧ s2 = s3 ∧ s3 = s4 ∧ s4 = s5) →
      (evaluateFiveCards (wheelCards s1 s2 s3 s4 s5)).category =
        HandCategory.straight) ∧
    ((evaluateFiveCards (sixHighCards t1 t2 t3 t4 t5)).category =
        (evaluateFiveCards (wheelCards s1 s2 s3 s4 s5)).category →
      0 < compareHands
        (mkEvalResult (evaluateFiveCards (wheelCards s1 s2 s3 s4 s5))
          (wheelCards s1 s2 s3 s4 s5))
        (mkEvalResult (evaluateFiveCards (sixHighCards t1 t2 t3 t4 t5))
          (sixHighCards t1 t2 t3 t4 t5))) := by
  obtain ⟨hw5, hwcat⟩ := wheel_eval s1 s2 s3 s4 s5
  obtain ⟨hx6, _⟩ := six_high_eval t1 t2 t3 t4 t5
  refine ⟨hw5, ?_, ?_, ?_⟩
  · intro h; rw [hwcat, if_pos h]
  · intro h; rw [hwcat, if_neg h]
  · intro hcat
    simp only [compareHands, mkEvalResult, toComparableRank, hw5, hx6, hcat]
    omega

/-- Witness for C4 at concrete suits (wheel all spades against a suited
six-high straight flush). -/
theorem claim4_witness :
    (evaluateFiveCards
        (wheelCards .spades .spades .spades .spades .spades)).category =
      HandCategory.straightFlush ∧
    0 < compareHands
      (mkEvalResult
        (evaluateFiveCards (wheelCards .spades .spades .spades .spades .spades))
        (wheelCards .spades .spades .spades .spades .spades))
      (mkEvalResult
        (evaluateFiveCards (sixHighCards .spades .spades .spades .spades .spades))
        (sixHighCards .spades .spades .spades .spades .spades)) :=
  ⟨(claim4_wheel_five_high .spades .spades .spades .spades .spades
      .spades .spades .spades .spades .spades).2.1 ⟨rfl, rfl, rfl, rfl⟩,
   (claim4_wheel_five_high .spades .spades .spades .spades .spades
      .spades .spades .spades .spades .spades).2.2.2 (by decide)⟩

/-! ## Claims C6 and C10: showdown pot distribution -/

/-- Away from index 0, the per-winner credit is always the plain share. -/
theorem enumFrom_credit_amounts (share rem : Int) :
    ∀ (l : List (String × HandEvalResult)) (n : Nat), n ≠ 0 →
      (List.enumFrom n l).map (fun ip => share + if ip.1 = 0 then rem else 0) =
        List.replicate l.length share := by
  intro l
  induction l with
  | nil => intro n _; rfl
  | cons x xs ih =>
      intro n hn
      simp only [List.enumFrom, List.map_cons, List.length_cons, List.replicate_succ]
      rw [if_neg hn, add_zero, ih (n + 1) (Nat.succ_ne_zero n)]

/-- The amounts credited for one pot: the first tied winner gets share plus
remainder, every other tied winner gets the share. -/
theorem potCredits_amounts (amount : Int)
    (potWinners : List (String × HandEvalResult)) (h : potWinners ≠ []) :
    (potCredits amount potWinners).map (fun c => c.2.1) =
      (Int.fdiv amount potWinners.length +
        (amount - Int.fdiv amount potWinners.length * potWinners.length)) ::
      List.replicate (potWinners.length - 1)
        (Int.fdiv amount potWinners.length) := by
  match potWinners with
  | [] => exact absurd rfl h
  | w :: rest =>
      simp only [potCredits, List.enum, List.enumFrom, List.map_cons,
        List.map_map, List.length_cons, Nat.add_sub_cancel]
      rw [if_pos trivial]
      congr 1
      have := enumFrom_credit_amounts
        (Int.fdiv amount ((rest.length : Int) + 1))
        (amount - Int.fdiv amount ((rest.length : Int) + 1) * ((rest.length : Int) + 1))
        rest 1 (Nat.one_ne_zero)
      rw [show ((0 : Nat) + 1) = 1 from rfl]
      push_cast
      simpa [Function.comp] using this

/-- The credits for one pot sum to exactly the pot amount. -/
theorem potCredits_sum (amount : Int)
    (potWinners : List (String × HandEvalResult)) (h : potWinners ≠ []) :
    ((potCredits amount potWinners).map (fun c => c.2.1)).sum = amount := by
  rw [potCredits_amounts amount potWinners h]
  match potWinners with
  | [] => exact absurd rfl h
  | w :: rest =>
      simp only [List.sum_cons, List.sum_replicate, smul_eq_mul,
        List.length_cons, Nat.add_sub_cancel]
      push_cast
      ring

/-- C6.  In `resolveShowdown`, a pot with `k ≥ 1` tied winners credits each
winner `floor(amount / k)` and the first winner additionally the remainder
`amount - k * floor(amount / k)`, so the credited amounts sum to exactly the
pot amount. -/
theorem claim6_split_pot_exact (amount : Int)
    (potWinners : List (String × HandEvalResult)) (h : potWinners ≠ []) :
    (potCredits amount potWinners).map (fun c => c.2.1) =
      (Int.fdiv amount potWinners.length +
        (amount - Int.fdiv amount potWinners.length * potWinners.length)) ::
      List.replicate (potWinners.length - 1)
        (Int.fdiv amount potWinners.length) ∧
    ((potCredits amount potWinners).map (fun c => c.2.1)).sum = amount :=
  ⟨potCredits_amounts amount potWinners h, potCredits_sum amount potWinners h⟩

/-- Witness for C6: a 101-chip pot split between two tied winners pays
50 + 1 to the first and 50 to the second, summing to 101. -/
theorem claim6_witness :
    (potCredits 101
        [("A", { category := .highCard, rank := 0, cards := [], description := "x" }),
         ("B", { category := .highCard, rank := 0, cards := [], description := "x" })]).map
        (fun c => c.2.1) =
      (Int.fdiv 101
          ([("A", ({ category := .highCard, rank := 0, cards := [], description := "x" } :
              HandEvalResult)),
            ("B", { category := .highCard, rank := 0, cards := [], description := "x" })] :
            List (String × HandEvalResult)).length +
        (101 - Int.fdiv 101
            ([("A", ({ category := .highCard, rank := 0, cards := [], description := "x" } :
                HandEvalResult)),
              ("B", { category := .highCard, rank := 0, cards := [], description := "x" })] :
              List (String × HandEvalResult)).length *
          ([("A", ({ category := .highCard, rank := 0, cards := [], description := "x" } :
              HandEvalResult)),
            ("B", { category := .highCard, rank := 0, cards := [], description := "x" })] :
            List (String × HandEvalResult)).length)) ::
      List.replicate
        (([("A", ({ category := .highCard, rank := 0, cards := [], description := "x" } :
            HandEvalResult)),
          ("B", { category := .highCard, rank := 0, cards := [], description := "x" })] :
          List (String × HandEvalResult)).length - 1)
        (Int.fdiv 101
          ([("A", ({ category := .highCard, rank := 0, cards := [], description := "x" } :
              HandEvalResult)),
            ("B", { category := .highCard, rank := 0, cards := [], description := "x" })] :
            List (String × HandEvalResult)).length) ∧
    ((potCredits 101
        [("A", { category := .highCard, rank := 0, cards := [], description := "x" }),
         ("B", { category := .highCard, rank := 0, cards := [], description := "x" })]).map
        (fun c => c.2.1)).sum = 101 :=
  claim6_split_pot_exact 101
    [("A", { category := .highCard, rank := 0, cards := [], description := "x" }),
     ("B", { category := .highCard, rank := 0, cards := [], description := "x" })]
    (by decide)

/-- Crediting one amount raises the winners' total by exactly that amount,
whether it merges into an existing entry or appends a new one. -/
theorem winnersTotal_creditWinner (ws : List Winner) (pid : String) (amt : Int)
    (desc : String) :
    winnersTotal (creditWinner ws pid amt desc) = winnersTotal ws + amt := by
  induction ws with
  | nil => simp [creditWinner, winnersTotal]
  | cons w rest ih =>
      by_cases h : w.playerId = pid
      · simp only [creditWinner, if_pos h, winnersTotal, List.map_cons, List.sum_cons]
        ring
      · simp only [creditWinner, if_neg h, winnersTotal, List.map_cons, List.sum_cons]
        simp only [winnersTotal] at ih
        rw [ih]
        ring

/-- Folding a credit list into the winners raises the total by the sum of
the credited amounts. -/
theorem winnersTotal_foldl_credits (credits : List (String × Int × String)) :
    ∀ ws : List Winner,
      winnersTotal (credits.foldl (fun ws c => creditWinner ws c.1 c.2.1 c.2.2) ws) =
        winnersTotal ws + (credits.map (fun c => c.2.1)).sum := by
  induction credits with
  | nil => intro ws; simp
  | cons c cs ih =>
      intro ws
      simp only [List.foldl_cons, List.map_cons, List.sum_cons]
      rw [ih, winnersTotal_creditWinner]
      ring

/-- Processing one pot raises the winners' total by the pot amount when the
pot has at least one eligible evaluated hand, and leaves it unchanged when
it has none. -/
theorem winnersTotal_processPot (playerHands : List (String × HandEvalResult))
    (ws : List Winner) (pot : Pot) :
    winnersTotal (processPot playerHands ws pot) =
      winnersTotal ws +
        (if eligibleHandsOf playerHands pot = [] then 0 else pot.amount) := by
  unfold processPot
  rcases hs : (eligibleHandsOf playerHands pot).insertionSort
      (fun a b => a.2.rank ≤ b.2.rank) with _ | ⟨best, rest⟩
  · have hnil : eligibleHandsOf playerHands pot = [] := by
      have := List.perm_insertionSort
        (fun a b => a.2.rank ≤ b.2.rank) (eligibleHandsOf playerHands pot)
      rw [hs] at this
      exact this.symm.eq_nil
    simp [hs, hnil]
  · have hne : eligibleHandsOf playerHands pot ≠ [] := by
      intro hcontra
      rw [hcontra] at hs
      simp [List.insertionSort] at hs
    have hwne : ((best :: rest).filter
        (fun h => decide (h.2.rank = best.2.rank))) ≠ [] := by
      simp [List.filter_cons]
    simp only [hs, if_neg hne]
    rw [winnersTotal_foldl_credits, potCredits_sum pot.amount _ hwne]

/-- Folding `processPot` over a pot list adds, pot by pot, exactly the
amounts of the pots having an eligible evaluated hand. -/
theorem winnersTotal_foldl_processPot (playerHands : List (String × HandEvalResult)) :
    ∀ (pots : List Pot) (ws : List Winner),
      winnersTotal (pots.foldl (processPot playerHands) ws) =
        winnersTotal ws +
          (pots.map (fun pot =>
            if eligibleHandsOf playerHands pot = [] then 0 else pot.amount)).sum := by
  intro pots
  induction pots with
  | nil => intro ws; simp
  | cons pot rest ih =>
      intro ws
      simp only [List.foldl_cons, List.map_cons, List.sum_cons]
      rw [ih, winnersTotal_processPot]
      ring

/-- C10.  `resolveShowdown` silently skips every pot whose eligible set has
no evaluated hand: the winners' amounts sum to the total of exactly those
pots that have at least one eligible evaluated player. -/
theorem claim10_unclaimed_pots_skipped (players : List Player)
    (communityCards : List Card) (pots : List Pot) :
    winnersTotal (resolveShowdown players communityCards pots).winners =
      (pots.map (fun pot =>
        if eligibleHandsOf (computePlayerHands players communityCards) pot = []
        then 0 else pot.amount)).sum := by
  unfold resolveShowdown
  rw [winnersTotal_foldl_processPot]
  simp [winnersTotal]

/-! ## Claim C8: round completion with a single active player -/

/-- C8 (amended).  When exactly one non-folded, non-all-in player remains:
if that player has taken a non-blind action this street and has matched the
table current bet, the round is complete; if that player has taken no
non-blind action this street **and at least one other non-folded player
remains**, the round is not complete.  (When every other player has folded,
the source reports the round complete regardless of actions — see the
counterexample.) -/
theorem claim8_single_active_completion (state : GameState) (player : Player)
    (hactive : (state.players.filter (fun p => !p.isFolded)).filter
        (fun p => !p.isAllIn) = [player]) :
    (streetActionsOf state player ≠ [] ∧ state.currentBet ≤ player.currentBet →
      isBettingRoundComplete state = true) ∧
    (2 ≤ (state.players.filter (fun p => !p.isFolded)).length →
      streetActionsOf state player = [] →
      isBettingRoundComplete state = false) := by
  unfold isBettingRoundComplete
  by_cases h1 : (state.players.filter (fun p => !p.isFolded)).length ≤ 1
  · refine ⟨fun _ => by simp [h1], fun h2 _ => absurd h1 (by omega)⟩
  · rw [if_neg h1]
    simp only [hactive]
    constructor
    · intro ⟨hne, hle⟩
      have hlen : (streetActionsOf state player).length > 0 := List.length_pos.mpr hne
      simp [if_pos (And.intro hle hlen)]
    · intro h2 hsa
      have hlen0 : (streetActionsOf state player).length = 0 := by rw [hsa]; rfl
      simp [hlen0]

/-- The counterexample state for C8: active player P has taken no action,
the only other player has folded. -/
def stateC8cex : GameState :=
  { baseState with
    players := [{ basePlayer with id := "P", stack := 5 },
                { basePlayer with id := "Q", stack := 5, isFolded := true }] }

/-- Counterexample to C8 as stated: exactly one non-folded, non-all-in
player remains and has taken no non-blind action this street, yet
`isBettingRoundComplete` returns `true` (the claim predicts `false`),
because the lone opponent folded rather than going all-in. -/
theorem claim8_counterexample :
    (stateC8cex.players.filter (fun p => !p.isFolded)).filter
        (fun p => !p.isAllIn) = [{ basePlayer with id := "P", stack := 5 }] ∧
    streetActionsOf stateC8cex { basePlayer with id := "P", stack := 5 } = [] ∧
    isBettingRoundComplete stateC8cex = true := by
  decide

/-- Witness state where the single active player has matched and acted. -/
def stateC8acted : GameState :=
  { baseState with
    currentBet := 10,
    players := [{ basePlayer with id := "P", stack := 5, currentBet := 10 },
                { basePlayer with id := "Q", totalBetThisHand := 10, isAllIn := true }],
    actions := [{ playerId := "P", type := .call, amount := 10, street := .flop }] }

/-- Witness state where the single active player has not yet acted. -/
def stateC8waiting : GameState :=
  { baseState with
    currentBet := 10,
    players := [{ basePlayer with id := "P", stack := 5, currentBet := 10 },
                { basePlayer with id := "Q", totalBetThisHand := 10, isAllIn := true }] }

/-- Witness for C8 at concrete states: an acted, matched single active
player completes the round; the same player with no action this street does
not. -/
theorem claim8_witness :
    isBettingRoundComplete stateC8acted = true ∧
    isBettingRoundComplete stateC8waiting = false :=
  ⟨(claim8_single_active_completion stateC8acted
      { basePlayer with id := "P", stack := 5, currentBet := 10 } (by decide)).1
      (by decide),
   (claim8_single_active_completion stateC8waiting
      { basePlayer with id := "P", stack := 5, currentBet := 10 } (by decide)).2
      (by decide) (by decide)⟩

/-! ## Claims C2 and C9: executeAction invariants -/

/-- Replacing the element at a valid index changes a mapped sum by the
difference of the images. -/
theorem sum_map_set (f : Player → Int) :
    ∀ (l : List Player) (i : Nat) (x : Player) (h : i < l.length),
      ((l.set i x).map f).sum = (l.map f).sum + f x - f (l.get ⟨i, h⟩) := by
  intro l
  induction l with
  | nil => intro i x h; simp at h
  | cons a as ih =>
      intro i x h
      match i with
      | 0 => simp [List.set]; ring
      | j + 1 =>
          have hj : j < as.length := by simpa using Nat.lt_of_succ_lt_succ h
          simp only [List.set, List.map_cons, List.sum_cons, List.get]
          rw [ih j x hj]
          ring

/-- C2.  For every state whose players all have non-negative stacks, every
action kind and every requested amount (in range or not), `executeAction`
preserves the total of stack plus cumulative contribution over all players,
and every player's stack stays non-negative: requested amounts are clamped,
never trusted. -/
theorem claim2_chip_conservation (state : GameState) (action : ActionType)
    (amount : Int) (hstacks : ∀ p ∈ state.players, 0 ≤ p.stack) :
    chipTotal (executeAction state action amount).players = chipTotal state.players ∧
    ∀ p ∈ (executeAction state action amount).players, 0 ≤ p.stack := by
  unfold executeAction
  rcases hp : state.players[state.activePlayerIndex]? with _ | player
  · exact ⟨rfl, hstacks⟩
  · obtain ⟨hi, heq⟩ := List.getElem?_eq_some_iff.mp hp
    have hget : state.players.get ⟨state.activePlayerIndex, hi⟩ = player := by
      simpa [List.get_eq_getElem] using heq
    have hmem : player ∈ state.players := by
      rw [← heq]
      exact List.getElem_mem hi
    have hps : 0 ≤ player.stack := hstacks player hmem
    have key : ∀ r : Player,
        r.stack + r.totalBetThisHand = player.stack + player.totalBetThisHand →
        0 ≤ r.stack →
        chipTotal (state.players.set state.activePlayerIndex r) =
          chipTotal state.players ∧
        ∀ p ∈ state.players.set state.activePlayerIndex r, 0 ≤ p.stack := by
      intro r hr hrs
      constructor
      · unfold chipTotal
        rw [sum_map_set (fun p => p.stack + p.totalBetThisHand) _ _ _ hi, hget, hr]
        ring
      · intro q hq
        rcases List.mem_or_eq_of_mem_set hq with hmemq | rfl
        · exact hstacks q hmemq
        · exact hrs
    cases action with
    | fold => exact key _ rfl hps
    | check => exact key _ rfl hps
    | postBlind => exact key _ rfl hps
    | call =>
        refine key _ (by dsimp only; ring) ?_
        dsimp only
        omega
    | bet =>
        refine key _ (by dsimp only; ring) ?_
        dsimp only
        omega
    | raise =>
        refine key _ (by dsimp only; ring) ?_
        dsimp only
        omega
    | allIn =>
        dsimp only
        split
        · exact key _ (by dsimp only; ring) (le_refl 0)
        · exact key _ (by dsimp only; ring) (le_refl 0)

/-- A concrete short-stacked player for the C2 witness. -/
def playerC2P : Player :=
  { basePlayer with id := "P", stack := 20, currentBet := 5, totalBetThisHand := 5 }

/-- A concrete covering player for the C2 witness. -/
def playerC2Q : Player :=
  { basePlayer with id := "Q", stack := 100, currentBet := 30, totalBetThisHand := 30 }

/-- A concrete two-player state for the C2 witness. -/
def stateC2w : GameState :=
  { baseState with currentBet := 30, players := [playerC2P, playerC2Q] }

/-- Witness for C2: an over-the-stack call is clamped, conserving chips and
keeping stacks non-negative. -/
theorem claim2_witness :
    chipTotal (executeAction stateC2w .call 0).players = chipTotal stateC2w.players ∧
    ∀ p ∈ (executeAction stateC2w .call 0).players, 0 ≤ p.stack :=
  claim2_chip_conservation stateC2w .call 0 (by decide)

/-- C9 (amended).  `executeAction` never changes the street, and the table
current-bet level never decreases, for fold, check, call, all-in and
post-blind unconditionally, and for bet and raise whenever the clamped
amount `min(amount, stack)` covers the outstanding amount
`currentBet - player.currentBet` — which holds for every legal bet (no
outstanding bet, non-negative amount) and every legal raise. -/
theorem claim9_current_bet_monotone (state : GameState) (action : ActionType)
    (amount : Int)
    (hbr : ∀ p, state.players[state.activePlayerIndex]? = some p →
      action = ActionType.bet ∨ action = ActionType.raise →
      state.currentBet - p.currentBet ≤ min amount p.stack) :
    state.currentBet ≤ (executeAction state action amount).currentBet ∧
    (executeAction state action amount).street = state.street := by
  unfold executeAction
  rcases hp : state.players[state.activePlayerIndex]? with _ | player
  · exact ⟨le_refl _, rfl⟩
  · cases action with
    | fold => exact ⟨le_refl _, rfl⟩
    | check => exact ⟨le_refl _, rfl⟩
    | call => exact ⟨le_refl _, rfl⟩
    | postBlind => exact ⟨le_refl _, rfl⟩
    | bet =>
        have h := hbr player hp (Or.inl rfl)
        refine ⟨?_, rfl⟩
        simp only
        omega
    | raise =>
        have h := hbr player hp (Or.inr rfl)
        refine ⟨?_, rfl⟩
        simp only
        omega
    | allIn =>
        constructor
        · dsimp only
          split
          · dsimp only
            omega
          · exact le_refl _
        · dsimp only

/-- A state with an outstanding bet of 10 that the short-stacked active
player has not matched. -/
def stateC9cex : GameState :=
  { baseState with
    currentBet := 10,
    players := [{ basePlayer with id := "P", stack := 5 }] }

/-- Counterexample to C9 as stated: a bet of 5 into an outstanding
current-bet level of 10 (an action the driver would not offer, but which
`executeAction` accepts) lowers `currentBet` from 10 to 5. -/
theorem claim9_counterexample :
    (executeAction stateC9cex .bet 5).currentBet < stateC9cex.currentBet := by
  decide

/-- Witness for C9 at a concrete state and action. -/
theorem claim9_witness :
    stateC9cex.currentBet ≤ (executeAction stateC9cex .call 0).currentBet ∧
    (executeAction stateC9cex .call 0).street = stateC9cex.street :=
  claim9_current_bet_monotone stateC9cex .call 0
    (fun _ _ hor => absurd hor (by decide))

/-! ## Claim C5: the category term always dominates the tiebreak term -/

/-- Every rank value lies in [0, 14]. -/
theorem rank_val_bounds (r : Rank) : 0 ≤ r.val ∧ r.val ≤ 14 := by
  cases r <;> exact ⟨by norm_num [Rank.val], by norm_num [Rank.val]⟩

/-- Every entry of the sorted rank list of a hand lies in [0, 14]. -/
theorem ranksOf_bounds (cards : List Card) :
    ∀ x ∈ sortDesc (cards.map (fun c => c.rank.val)), 0 ≤ x ∧ x ≤ 14 := by
  intro x hx
  rw [sortDesc, List.mem_insertionSort] at hx
  obtain ⟨c, _, rfl⟩ := List.mem_map.mp hx
  exact rank_val_bounds c.rank

/-- Indexing with default 0 into a [0, 14]-bounded list stays in [0, 14]. -/
theorem getD_bounds {l : List Int} (h : ∀ x ∈ l, 0 ≤ x ∧ x ≤ 14) (i : Nat) :
    0 ≤ l.getD i 0 ∧ l.getD i 0 ≤ 14 := by
  rw [List.getD_eq_getElem?_getD]
  rcases Nat.lt_or_ge i l.length with hi | hi
  · rw [List.getElem?_eq_getElem hi]
    exact h _ (List.getElem_mem hi)
  · rw [List.getElem?_eq_none hi]
    exact ⟨le_refl 0, by norm_num⟩

/-- Every rank key in the counts table lies in [0, 14]. -/
theorem countsTable_fst_bounds {ranks : List Int}
    (h : ∀ x ∈ ranks, 0 ≤ x ∧ x ≤ 14) :
    ∀ e ∈ countsTable ranks, 0 ≤ e.1 ∧ e.1 ≤ 14 := by
  intro e he
  unfold countsTable at he
  rw [List.mem_insertionSort] at he
  obtain ⟨r, hr, rfl⟩ := List.mem_map.mp he
  exact h r (List.mem_dedup.mp hr)

/-- Indexing into the counts table keeps the rank key in [0, 14]. -/
theorem countsGetD_fst_bounds {ranks : List Int}
    (h : ∀ x ∈ ranks, 0 ≤ x ∧ x ≤ 14) (i : Nat) :
    0 ≤ ((countsTable ranks).getD i (0, 0)).1 ∧
      ((countsTable ranks).getD i (0, 0)).1 ≤ 14 := by
  rw [List.getD_eq_getElem?_getD]
  rcases Nat.lt_or_ge i (countsTable ranks).length with hi | hi
  · rw [List.getElem?_eq_getElem hi]
    exact countsTable_fst_bounds h _ (List.getElem_mem hi)
  · rw [List.getElem?_eq_none hi]
    exact ⟨le_refl 0, by norm_num⟩

/-- Every kicker drawn from the counts table lies in [0, 14]. -/
theorem kickers_bounds {ranks : List Int}
    (h : ∀ x ∈ ranks, 0 ≤ x ∧ x ≤ 14) (i : Nat) :
    0 ≤ (sortDesc (((countsTable ranks).drop 1).map (fun c => c.1))).getD i 0 ∧
      (sortDesc (((countsTable ranks).drop 1).map (fun c => c.1))).getD i 0 ≤ 14 := by
  apply getD_bounds
  intro x hx
  rw [sortDesc, List.mem_insertionSort] at hx
  obtain ⟨e, he, rfl⟩ := List.mem_map.mp hx
  exact countsTable_fst_bounds h e (List.mem_of_mem_drop he)

set_option maxHeartbeats 1600000 in
/-- The within-category tiebreak score is non-negative and strictly below
the category weight 1,000,000, in every branch of the evaluator. -/
theorem subRank_bounds (cards : List Card) :
    0 ≤ (evaluateFiveCards cards).subRank ∧
      (evaluateFiveCards cards).subRank < 1000000 := by
  have hr := ranksOf_bounds cards
  have h0 := getD_bounds hr 0
  have h1 := getD_bounds hr 1
  have h2 := getD_bounds hr 2
  have h3 := getD_bounds hr 3
  have h4 := getD_bounds hr 4
  have hc0 := countsGetD_fst_bounds hr 0
  have hc1 := countsGetD_fst_bounds hr 1
  have hc2 := countsGetD_fst_bounds hr 2
  have hk0 := kickers_bounds hr 0
  have hk1 := kickers_bounds hr 1
  have hk2 := kickers_bounds hr 2
  unfold evaluateFiveCards
  dsimp only
  split_ifs <;>
    simp only [show ((15:Int)^4 = 50625) from by norm_num,
      show ((15:Int)^3 = 3375) from by norm_num,
      show ((15:Int)^2 = 225) from by norm_num] <;>
    constructor <;>
    omega

/-- Any value produced by the best-combination fold is the five-card
evaluation of some card list. -/
theorem bestOfCombos_eval (combos : List (List Card)) :
    ∀ acc : Option (FiveCardResult × List Card),
      (∀ b, acc = some b → ∃ c, b.1 = evaluateFiveCards c) →
      ∀ b, (combos.foldl
        (fun best combo =>
          let result := evaluateFiveCards combo
          match best with
          | none => some (result, combo)
          | some b =>
              if b.1.category.val < result.category.val ∨
                  (result.category = b.1.category ∧ b.1.subRank < result.subRank) then
                some (result, combo)
              else best)
        acc) = some b → ∃ c, b.1 = evaluateFiveCards c := by
  induction combos with
  | nil => intro acc hacc b hb; exact hacc b hb
  | cons combo rest ih =>
      intro acc hacc b hb
      refine ih _ ?_ b hb
      intro b' hb'
      rcases acc with _ | prev
      · simp at hb'
        exact ⟨combo, by rw [← hb']⟩
      · dsimp only at hb'
        split at hb'
        · exact ⟨combo, by injection hb' with h; rw [← h]⟩
        · exact hacc b' hb'

/-- Every successful `evaluateHand` result carries the category and the
comparable rank of the five-card evaluation of some card list. -/
theorem evaluateHand_ok_shape (cards : List Card) (r : HandEvalResult)
    (h : evaluateHand cards = Except.ok r) :
    ∃ five : List Card, r.category = (evaluateFiveCards five).category ∧
      r.rank = toComparableRank (evaluateFiveCards five).category
        (evaluateFiveCards five).subRank := by
  unfold evaluateHand at h
  split_ifs at h
  · dsimp only at h
    injection h with h
    refine ⟨cards, ?_, ?_⟩ <;> rw [← h] <;> rfl
  · rcases hb : bestOfCombos (fiveCardCombinations cards) with _ | best
    · rw [hb] at h
      exact absurd h (by simp)
    · rw [hb] at h
      dsimp only at h
      injection h with h
      obtain ⟨c, hc⟩ := bestOfCombos_eval (fiveCardCombinations cards) none
        (by intro b hb'; simp at hb') best hb
      refine ⟨c, ?_, ?_⟩ <;> rw [← h, hc] <;> rfl

/-- C5.  For any two hand evaluations, a strictly greater category (in the
enum order High Card < ... < Royal Flush) always wins under `compareHands`,
whatever the two tiebreak scores: the category term of the comparable rank
dominates the tiebreak term. -/
theorem claim5_category_dominates (ca cb : List Card) (ra rb : HandEvalResult)
    (hea : evaluateHand ca = Except.ok ra) (heb : evaluateHand cb = Except.ok rb)
    (hcat : rb.category.val < ra.category.val) :
    compareHands ra rb < 0 := by
  obtain ⟨fa, hcata, hranka⟩ := evaluateHand_ok_shape ca ra hea
  obtain ⟨fb, hcatb, hrankb⟩ := evaluateHand_ok_shape cb rb heb
  have hba := subRank_bounds fa
  have hbb := subRank_bounds fb
  rw [hcata, hcatb] at hcat
  unfold compareHands
  rw [hranka, hrankb]
  unfold toComparableRank
  have hA : 0 ≤ (evaluateFiveCards fa).subRank := hba.1
  have hB : (evaluateFiveCards fb).subRank < 1000000 := hbb.2
  omega

/-- A concrete pair hand for the C5 witness. -/
def cardsC5a : List Card :=
  [⟨.ace, .spades⟩, ⟨.ace, .hearts⟩, ⟨.king, .spades⟩, ⟨.queen, .spades⟩,
   ⟨.jack, .spades⟩]

/-- A concrete high-card hand for the C5 witness. -/
def cardsC5b : List Card :=
  [⟨.nine, .diamonds⟩, ⟨.seven, .spades⟩, ⟨.five, .spades⟩, ⟨.three, .hearts⟩,
   ⟨.two, .spades⟩]

/-- The evaluation of `cardsC5a`. -/
def resultC5a : HandEvalResult :=
  { category := .pair, rank := -1050366, cards := cardsC5a,
    description := "Pair of Aces" }

/-- The evaluation of `cardsC5b`. -/
def resultC5b : HandEvalResult :=
  { category := .highCard, rank := -480422, cards := cardsC5b,
    description := "Nine-high" }

/-- Witness for C5: a pair of aces beats a nine-high high card. -/
theorem claim5_witness : compareHands resultC5a resultC5b < 0 :=
  claim5_category_dominates cardsC5a cardsC5b resultC5a resultC5b
    (by rfl) (by rfl) (by decide)

/-! ## Claim C1: the pot amounts always sum to the total contributions -/

/-- The total clamped contribution `sum of min(totalBetThisHand, x)` over a
player list: the chips contributed at or below level `x`. -/

def clampedSum (B : List Player) (x : Int) : Int :=
  (B.map (fun p => min p.totalBetThisHand x)).sum

/-- A mapped sum of differences is the difference of the mapped sums. -/
theorem sum_map_sub_int {α : Type} (l : List α) (f g : α → Int) :
    (l.map (fun a => f a - g a)).sum = (l.map f).sum - (l.map g).sum := by
  induction l with
  | nil => simp
  | cons a as ih => simp only [List.map_cons, List.sum_cons, ih]; ring

/-- Pointwise-dominated maps have dominated sums. -/
theorem sum_map_le_int {α : Type} (l : List α) (f g : α → Int)
    (h : ∀ a ∈ l, f a ≤ g a) : (l.map f).sum ≤ (l.map g).sum := by
  induction l with
  | nil => simp
  | cons a as ih =>
      simp only [List.map_cons, List.sum_cons]
      have h1 := h a (List.mem_cons_self a as)
      have h2 := ih (fun b hb => h b (List.mem_cons_of_mem a hb))
      omega

/-- The clamped contribution is monotone in the level. -/
theorem clampedSum_mono (B : List Player) {x y : Int} (h : x ≤ y) :
    clampedSum B x ≤ clampedSum B y := by
  unfold clampedSum
  exact sum_map_le_int B _ _ (fun p _ => min_le_min (le_refl _) h)

/-- For ordered levels, one slice amount of the pot loop telescopes to a
difference of clamped contributions. -/
theorem potAmount_eq (B : List Player) {prev L : Int} (h : prev ≤ L) :
    (B.map (fun p =>
      max 0 (min p.totalBetThisHand L - min p.totalBetThisHand prev))).sum =
      clampedSum B L - clampedSum B prev := by
  unfold clampedSum
  rw [← sum_map_sub_int B (fun p => min p.totalBetThisHand L)
    (fun p => min p.totalBetThisHand prev)]
  apply congrArg
  apply List.map_congr_left
  intro p _
  have : min p.totalBetThisHand prev ≤ min p.totalBetThisHand L :=
    min_le_min (le_refl _) h
  omega

/-- Pot totals add over list append. -/
theorem totalPotSize_append (a b : List Pot) :
    totalPotSize (a ++ b) = totalPotSize a + totalPotSize b := by
  unfold totalPotSize
  simp

/-- Folding dead money into the last pot adds it to the total. -/
theorem addToLastPot_sum (x : Int) :
    ∀ pots : List Pot, pots ≠ [] →
      totalPotSize (addToLastPot pots x) = totalPotSize pots + x := by
  intro pots
  induction pots with
  | nil => intro h; exact absurd rfl h
  | cons p rest ih =>
      intro _
      match rest with
      | [] => simp [addToLastPot, totalPotSize]
      | q :: rs =>
          have := ih (by simp)
          simp only [addToLastPot, totalPotSize, List.map_cons, List.sum_cons] at *
          omega

/-- Folding dead money into a non-empty pot list keeps it non-empty. -/
theorem addToLastPot_ne_nil (x : Int) :
    ∀ pots : List Pot, pots ≠ [] → addToLastPot pots x ≠ [] := by
  intro pots hne
  match pots with
  | [p] => simp [addToLastPot]
  | p :: q :: rs => simp [addToLastPot]

/-- The invariant carried through the per-level loop of `calculatePots`. -/
def potInv (B NF : List Player) (x : Int) (pots : List Pot) : Prop :=
  (pots = [] ∧
    ((NF.filter (fun p => decide (x ≤ p.totalBetThisHand))) = [] ∨
      clampedSum B x = 0)) ∨
  (pots ≠ [] ∧ totalPotSize pots = clampedSum B x)

/-- Once no non-folded player reaches a level, none reaches a higher one. -/
theorem eligible_nil_mono (NF : List Player) {a b : Int} (hab : a ≤ b)
    (h : NF.filter (fun p => decide (a ≤ p.totalBetThisHand)) = []) :
    NF.filter (fun p => decide (b ≤ p.totalBetThisHand)) = [] := by
  rw [List.filter_eq_nil_iff] at h ⊢
  intro p hp
  have := h p hp
  simp only [decide_eq_true_eq] at *
  omega

/-- One step of the per-level loop preserves the invariant. -/
theorem potStep_inv (B NF : List Player) {prev L : Int} {pots : List Pot}
    (hle : prev ≤ L) (hinv : potInv B NF prev pots) :
    potInv B NF L (potStep B NF (prev, pots) L).2 := by
  have hA := potAmount_eq B hle
  have hmono := clampedSum_mono B hle
  unfold potStep
  dsimp only
  split_ifs with h1 h2
  · -- push a new pot
    right
    refine ⟨by simp, ?_⟩
    rw [totalPotSize_append, hA]
    have : totalPotSize pots = clampedSum B prev := by
      rcases hinv with ⟨hnil, hor⟩ | ⟨_, hsum⟩
      · subst hnil
        rcases hor with helig | hzero
        · exfalso
          apply h1.2
          rw [List.map_eq_nil_iff]
          exact eligible_nil_mono NF hle helig
        · simp [totalPotSize, hzero]
      · exact hsum
    simp only [totalPotSize, List.map_cons, List.map_nil, List.sum_cons,
      List.sum_nil] at *
    omega
  · -- dead money added to the last pot
    right
    have hne := h2.2
    refine ⟨addToLastPot_ne_nil _ pots hne, ?_⟩
    rw [addToLastPot_sum _ pots hne, hA]
    rcases hinv with ⟨hnil, _⟩ | ⟨_, hsum⟩
    · exact absurd hnil hne
    · omega
  · -- nothing to add, or dropped dead money with no pot yet
    have hA0 : 0 ≤ clampedSum B L - clampedSum B prev := by omega
    rcases hinv with ⟨hnil, hor⟩ | ⟨hne, hsum⟩
    · left
      refine ⟨hnil, ?_⟩
      rcases hor with helig | hzero
      · exact Or.inl (eligible_nil_mono NF hle helig)
      · subst hnil
        -- pots = [], so the first branch failed because A ≤ 0 or elig = []
        by_cases helig : NF.filter (fun p => decide (L ≤ p.totalBetThisHand)) = []
        · exact Or.inl helig
        · right
          have hAle : (B.map (fun p =>
              max 0 (min p.totalBetThisHand L - min p.totalBetThisHand prev))).sum ≤ 0 := by
            by_contra hpos
            push_neg at hpos
            exact h1 ⟨hpos, by simp [List.map_eq_nil_iff, helig]⟩
          omega
    · right
      refine ⟨hne, ?_⟩
      have hAle : (B.map (fun p =>
          max 0 (min p.totalBetThisHand L - min p.totalBetThisHand prev))).sum ≤ 0 := by
        by_contra hpos
        push_neg at hpos
        exact h2 ⟨hpos, hne⟩
      omega

/-- The whole per-level loop preserves the invariant, landing at the last
level. -/
theorem foldl_potStep_inv (B NF : List Player) :
    ∀ (levels : List Int) (prev : Int) (pots : List Pot),
      List.Pairwise (· ≤ ·) levels → (∀ L ∈ levels, prev ≤ L) →
      potInv B NF prev pots →
      potInv B NF (levels.getLastD prev)
        ((levels.foldl (potStep B NF) (prev, pots)).2) := by
  intro levels
  induction levels with
  | nil => intro prev pots _ _ hinv; exact hinv
  | cons L rest ih =>
      intro prev pots hpair hall hinv
      have hstep : potStep B NF (prev, pots) L =
          (L, (potStep B NF (prev, pots) L).2) := rfl
      rw [List.foldl_cons, List.getLastD_cons, hstep]
      exact ih L _ hpair.of_cons
        (fun L2 h2 => List.rel_of_pairwise_cons hpair h2)
        (potStep_inv B NF (hall L (List.mem_cons_self L rest)) hinv)

/-- A lower bound of a sorted list bounds its last element. -/
theorem le_getLastD_aux :
    ∀ (l : List Int) (c : Int), List.Pairwise (· ≤ ·) l →
      (∀ y ∈ l, c ≤ y) → c ≤ l.getLastD c := by
  intro l
  induction l with
  | nil => intro c _ _; exact le_refl c
  | cons a as ih =>
      intro c hpair hall
      rw [List.getLastD_cons]
      have ha : c ≤ a := hall a (List.mem_cons_self a as)
      exact le_trans ha (ih a hpair.of_cons
        (fun y hy => List.rel_of_pairwise_cons hpair hy))

/-- Every member of a sorted list is at most its last element. -/
theorem le_getLastD_of_sorted :
    ∀ (l : List Int) (d : Int), List.Pairwise (· ≤ ·) l →
      ∀ x ∈ l, x ≤ l.getLastD d := by
  intro l
  induction l with
  | nil => intro d _ x hx; simp at hx
  | cons a as ih =>
      intro d hpair x hx
      rw [List.getLastD_cons]
      rcases List.mem_cons.mp hx with rfl | hx
      · exact le_getLastD_aux as x hpair.of_cons
          (fun y hy => List.rel_of_pairwise_cons hpair hy)
      · exact ih a hpair.of_cons x hx

/-- With non-negative contributions, restricting to the players who
contributed anything does not change the contribution sum. -/
theorem sum_filter_pos_tb (players : List Player)
    (hnn : ∀ p ∈ players, 0 ≤ p.totalBetThisHand) :
    ((players.filter (fun p => decide (0 < p.totalBetThisHand))).map
      (fun p => p.totalBetThisHand)).sum =
      (players.map (fun p => p.totalBetThisHand)).sum := by
  induction players with
  | nil => simp
  | cons a as ih =>
      have ha := hnn a (List.mem_cons_self a as)
      have ih' := ih (fun p hp => hnn p (List.mem_cons_of_mem a hp))
      by_cases h : 0 < a.totalBetThisHand
      · rw [List.filter_cons_of_pos (by simpa using h)]
        simp only [List.map_cons, List.sum_cons, ih']
      · have hz : a.totalBetThisHand = 0 := by omega
        rw [List.filter_cons_of_neg (by simpa using h)]
        simp only [List.map_cons, List.sum_cons, ih', hz]
        omega
/-- C1 (amended).  For every list of players with non-negative cumulative
contributions containing at least one non-folded player, the pot amounts
returned by `calculatePots` sum to the total of all players' cumulative
contributions, folded players included (dead-money slices are folded into
the preceding pot, or returned as a single fallback pot).  When every
contributor has folded the source instead returns no pots at all — see the
counterexample. -/
theorem claim1_pot_sum_invariant (players : List Player)
    (hnn : ∀ p ∈ players, 0 ≤ p.totalBetThisHand)
    (hnf : ∃ p ∈ players, p.isFolded = false) :
    totalPotSize (calculatePots players) = totalContributions players := by
  unfold calculatePots totalContributions
  by_cases h0 : (players.map (fun p => p.totalBetThisHand)).sum = 0
  · rw [if_pos h0, h0]; rfl
  · rw [if_neg h0]
    obtain ⟨q, hq, hqf⟩ := hnf
    have hnfne : players.filter (fun p => !p.isFolded) ≠ [] := by
      intro hc
      rw [List.filter_eq_nil_iff] at hc
      exact hc q hq (by simp [hqf])
    have hidsne : (players.filter (fun p => !p.isFolded)).map (fun p => p.id) ≠ [] := by
      simpa using hnfne
    dsimp only
    rw [if_neg hidsne]
    obtain ⟨m, hm⟩ : ∃ m, (players.map (fun p => p.totalBetThisHand)).max? = some m := by
      rcases hmax : (players.map (fun p => p.totalBetThisHand)).max? with _ | m
      · rw [List.max?_eq_none_iff, List.map_eq_nil_iff] at hmax
        rw [hmax] at hq
        simp at hq
      · exact ⟨m, hmax⟩
    have hmle : ∀ b ∈ players.map (fun p => p.totalBetThisHand), b ≤ m :=
      (List.max?_le_iff (fun a b c => max_le_iff) hm).1 (le_refl m)
    have hmmem : m ∈ players.map (fun p => p.totalBetThisHand) :=
      List.max?_mem (fun a b => max_choice a b) hm
    simp only [hm, Option.getD_some]
    by_cases hsa : ((players.filter (fun p => !p.isFolded)).filter
        (fun p => p.isAllIn && decide (p.totalBetThisHand < m))).map
          (fun p => p.totalBetThisHand) = []
    · rw [if_pos hsa]
      simp [totalPotSize]
    · rw [if_neg hsa]
      have hsorted : List.Pairwise (fun a b => a ≤ b)
          (((((players.filter (fun p => !p.isFolded)).filter
            (fun p => p.isAllIn && decide (p.totalBetThisHand < m))).map
              (fun p => p.totalBetThisHand)) ++ [m]).dedup.insertionSort
            (fun a b => a ≤ b)) :=
        List.sorted_insertionSort (fun a b => a ≤ b) _
      have hmemlvl : ∀ L, L ∈ (((((players.filter (fun p => !p.isFolded)).filter
            (fun p => p.isAllIn && decide (p.totalBetThisHand < m))).map
              (fun p => p.totalBetThisHand)) ++ [m]).dedup.insertionSort
            (fun a b => a ≤ b)) ↔
          L ∈ ((((players.filter (fun p => !p.isFolded)).filter
            (fun p => p.isAllIn && decide (p.totalBetThisHand < m))).map
              (fun p => p.totalBetThisHand)) ++ [m]) := by
        intro L
        rw [List.mem_insertionSort, List.mem_dedup]
      have hlvlnn : ∀ L ∈ (((((players.filter (fun p => !p.isFolded)).filter
            (fun p => p.isAllIn && decide (p.totalBetThisHand < m))).map
              (fun p => p.totalBetThisHand)) ++ [m]).dedup.insertionSort
            (fun a b => a ≤ b)), (0:Int) ≤ L := by
        intro L hL
        rcases List.mem_append.mp ((hmemlvl L).mp hL) with hL1 | hL2
        · obtain ⟨p, hp, rfl⟩ := List.mem_map.mp hL1
          exact hnn p (List.mem_of_mem_filter (List.mem_of_mem_filter hp))
        · obtain ⟨p, hp, rfl⟩ := by
            rw [List.mem_singleton] at hL2
            subst hL2
            exact List.mem_map.mp hmmem
          exact hnn p hp
      have hmlast : m ≤ (((((players.filter (fun p => !p.isFolded)).filter
            (fun p => p.isAllIn && decide (p.totalBetThisHand < m))).map
              (fun p => p.totalBetThisHand)) ++ [m]).dedup.insertionSort
            (fun a b => a ≤ b)).getLastD 0 :=
        le_getLastD_of_sorted _ 0 hsorted m
          ((hmemlvl m).mpr (List.mem_append_right _ (List.mem_singleton_self m)))
      have hinv0 : potInv (players.filter (fun p => decide (0 < p.totalBetThisHand)))
          (players.filter (fun p => !p.isFolded)) 0 [] := by
        left
        refine ⟨rfl, Or.inr ?_⟩
        unfold clampedSum
        rw [List.map_congr_left (g := fun _ => (0:Int)) ?_]
        · simp
        · intro p hp
          have := List.of_mem_filter hp
          simp only [decide_eq_true_eq] at this
          show min p.totalBetThisHand 0 = 0
          omega
      have hinvF := foldl_potStep_inv
        (players.filter (fun p => decide (0 < p.totalBetThisHand)))
        (players.filter (fun p => !p.isFolded)) _ 0 [] hsorted hlvlnn hinv0
      have hclamp : clampedSum (players.filter (fun p => decide (0 < p.totalBetThisHand)))
          ((((((players.filter (fun p => !p.isFolded)).filter
            (fun p => p.isAllIn && decide (p.totalBetThisHand < m))).map
              (fun p => p.totalBetThisHand)) ++ [m]).dedup.insertionSort
            (fun a b => a ≤ b)).getLastD 0) =
          (players.map (fun p => p.totalBetThisHand)).sum := by
        unfold clampedSum
        rw [List.map_congr_left (g := fun p => p.totalBetThisHand) ?_]
        · exact sum_filter_pos_tb players hnn
        · intro p hp
          apply min_eq_left
          exact le_trans
            (hmle _ (List.mem_map_of_mem _ (List.mem_of_mem_filter hp))) hmlast
      rcases hinvF with ⟨hnil, _⟩ | ⟨hne, hsum⟩
      · rw [hnil]
        rw [if_pos rfl]
        simp [totalPotSize]
      · rw [if_neg hne, hsum, hclamp]

/-- A single folded player who contributed 10 chips. -/
def foldedContributor : Player :=
  { basePlayer with id := "F", totalBetThisHand := 10, isFolded := true }

/-- Counterexample to C1 as stated for every list of players: when every
player has folded, `calculatePots` returns no pots, so the pot total is 0
while the players contributed 10. -/
theorem claim1_counterexample :
    totalPotSize (calculatePots [foldedContributor]) ≠
      totalContributions [foldedContributor] := by
  decide

/-- Players for the C1 witness: a short all-in, a folded contributor (dead
money) and a full contributor. -/
def playersC1w : List Player :=
  [{ basePlayer with id := "A", totalBetThisHand := 30, isAllIn := true },
   { basePlayer with id := "B", stack := 20, totalBetThisHand := 50, isFolded := true },
   { basePlayer with id := "C", stack := 50, totalBetThisHand := 100 }]

/-- Witness for C1 on a hand with side pots and dead money. -/
theorem claim1_witness :
    totalPotSize (calculatePots playersC1w) = totalContributions playersC1w :=
  claim1_pot_sum_invariant playersC1w (by decide) (by decide)

end Poker
